import Mathlib

/-!
Verification development for the `redis_types` library
(`src/redis_types/redis_types.py`): a thin object-oriented façade over a
Redis server's native collection types (sorted set, set, hash, list).

Modelling conventions:
* Wire values (members, hash fields/values, list items) are `String`;
  sorted-set scores are `Int` (an ordered score field; only ordering and
  equality of scores matter to the library).
* A codec is a pair of functions `enc dec : String → String`
  (the library's `__encoder__.encode` / `__decoder__.decode`).
* The Redis server state backing one key is modelled per structure:
  `ZState` (sorted set, its entry list kept in Redis order: score
  ascending, ties by member), `HState` (hash), plus plain keyspaces for
  sets and lists.
* Python `None` becomes `Option.none`; a raised Python exception becomes
  `Except.error` carrying a `PyErr`.
* A Python method call with the wrong number of positional arguments
  raises `TypeError` at call time; client commands whose call-site arity
  is part of a claim receive their positional arguments as a `List PyArg`
  and return `Except.error (PyErr.typeError …)` on an arity mismatch.
-/

set_option linter.unusedVariables false

namespace RedisTypes

/-- Python exception kinds raised by the code paths modelled here. -/
inductive PyErr where
  | indexError (msg : String)
  | valueError (msg : String)
  | typeError (msg : String)
deriving Repr, DecidableEq

/-- Positional argument of a Python client-method call (string or int). -/
inductive PyArg where
  | strA (s : String)
  | intA (n : Int)
deriving Repr, DecidableEq

/-- Redis inclusive index-range selection shared by `ZRANGE`, `ZREVRANGE`
and `LRANGE`: negative indices count from the end (-1 is the last
element), the start is clamped at 0, the stop at the last index, and an
empty selection results when the resolved start exceeds the resolved
stop. -/
def redisSlice {α : Type} (l : List α) (start stop : Int) : List α :=
  let n : Int := l.length
  let s : Int := if start < 0 then max (start + n) 0 else start
  let e : Int := if stop < 0 then stop + n else min stop (n - 1)
  if s ≤ e then (l.drop s.toNat).take (e - s + 1).toNat else []

/-- Elements of `l` at positions `0, k, 2k, …` (`ctr` counts the remaining
elements to skip before the next one is kept). -/
def strideEvery {α : Type} (k : Nat) : Nat → List α → List α
  | _, [] => []
  | 0, x :: xs => x :: strideEvery k (k - 1) xs
  | c + 1, _ :: xs => strideEvery k c xs

/-- Python extended slicing `l[::step]` with only a step: `None` keeps the
whole list, a positive step keeps every `step`-th element from the front,
a negative step keeps every `(-step)`-th element starting from the back,
and a zero step raises `ValueError`. -/
def pyStride {α : Type} (step : Option Int) (l : List α) : Except PyErr (List α) :=
  match step with
  | none => .ok l
  | some k =>
    if k = 0 then .error (.valueError "slice step cannot be zero")
    else if 0 < k then .ok (strideEvery k.toNat 0 l)
    else .ok (strideEvery (-k).toNat 0 l.reverse)

/-- Redis sorted-set element order: score ascending, ties broken by the
server's lexicographic member order. -/
def zleP (a b : String × Int) : Prop :=
  a.2 < b.2 ∨ (a.2 = b.2 ∧ a.1 ≤ b.1)

instance : DecidableRel zleP :=
  fun a b => inferInstanceAs (Decidable (_ ∨ _))

/-- Server state of one sorted-set key: the entry list `(member, score)`,
kept by the server in `zleP` order with pairwise-distinct members. -/
structure ZState where
  entries : List (String × Int)
deriving Repr, DecidableEq

/-- Cardinality of the sorted set (the server's `ZCARD`, the wrapper's
`__len__`/`card`). -/
def ZState.card (z : ZState) : Nat := z.entries.length

/-- Members currently present in the sorted set. -/
def ZState.keys (z : ZState) : List String := z.entries.map Prod.fst

/-- Well-formedness invariant the server maintains for a sorted set:
entries sorted by `zleP` and members pairwise distinct. -/
def ZWF (z : ZState) : Prop :=
  z.entries.Sorted zleP ∧ z.keys.Nodup

instance (z : ZState) : Decidable (ZWF z) :=
  inferInstanceAs (Decidable (_ ∧ _))

/-- Client command `ZRANGE key start stop` (ascending; the server stores
entries already sorted). -/
def zrangeRaw (z : ZState) (start stop : Int) : List (String × Int) :=
  redisSlice z.entries start stop

/-- Client command `ZREVRANGE key start stop` (descending). -/
def zrevrangeRaw (z : ZState) (start stop : Int) : List (String × Int) :=
  redisSlice z.entries.reverse start stop

/-- Client command `ZREM key member`: removes the member if present. -/
def zrem (z : ZState) (m : String) : ZState :=
  ⟨z.entries.filter (fun p => p.1 != m)⟩

/-- Client command `ZPOPMIN key count`: removes and returns the `count`
lowest-scored entries (ascending). -/
def zpopmin (z : ZState) (count : Int) : List (String × Int) × ZState :=
  (z.entries.take count.toNat, ⟨z.entries.drop count.toNat⟩)

/-- Client command `ZADD` for a single `(member, score)` pair: upsert,
repositioning the member according to its new score. -/
def zadd1 (z : ZState) (m : String) (sc : Int) : ZState :=
  ⟨List.orderedInsert zleP (m, sc) (z.entries.filter (fun p => p.1 != m))⟩

/-- Reply item of the wrapper's range reads: a bare decoded member when
`withscores` is off, a decoded `(member, score)` pair when it is on
(source: the comprehension in `ZSet.range` / `ZSet.revrange`). -/
inductive ZItem where
  | mem (v : String)
  | pair (v : String) (sc : Int)
deriving Repr, DecidableEq

/-- Decoding step applied to one raw entry by `ZSet.range`/`revrange`. -/
def zitem (dec : String → String) (ws : Bool) (p : String × Int) : ZItem :=
  if ws then .pair (dec p.1) p.2 else .mem (dec p.1)

/-- Wire commands a wrapper method may issue, recorded to state which
backing-store traffic a call produces. -/
inductive Cmd where
  | zrange (key : String) (start stop : Int) (withscores : Bool)
  | zrevrange (key : String) (start stop : Int) (withscores : Bool)
deriving Repr, DecidableEq

/-- Source `ZSet.range(start, stop, withscores=False)`: the effective
`withscores` is `withscores or self.withscores` (`flag` is the instance
attribute `self.withscores`); one `ZRANGE` is issued, and each reply row
is decoded. Returns the reply together with the issued command. -/
def ZSet.range (dec : String → String) (flag : Bool) (key : String) (z : ZState)
    (start stop : Int) (withscores : Bool) : List ZItem × List Cmd :=
  let ws := withscores || flag
  ((zrangeRaw z start stop).map (zitem dec ws), [Cmd.zrange key start stop ws])

/-- Source `ZSet.revrange(start, stop, withscores=False)`: same shape as
`ZSet.range` but issuing `ZREVRANGE` (descending). -/
def ZSet.revrange (dec : String → String) (flag : Bool) (key : String) (z : ZState)
    (start stop : Int) (withscores : Bool) : List ZItem × List Cmd :=
  let ws := withscores || flag
  ((zrevrangeRaw z start stop).map (zitem dec ws), [Cmd.zrevrange key start stop ws])

/-- Argument of Python `__getitem__`: a slice (each bound optional) or a
plain integer index. -/
inductive PyIndex where
  | islice (start stop step : Option Int)
  | iint (i : Int)
deriving Repr, DecidableEq

/-- Source `ZSet.__getitem__(indices)`: a non-slice argument raises
`IndexError` before any command is issued; a slice with step `-1`
delegates to `revrange` (no post-hoc stride); every other slice delegates
to `range` and applies the Python stride `[::step]` to the reply.
`indices.start or 0` is `start.getD 0` (a `None` start — and an explicit
0 — becomes 0) and the missing-stop default is `-1`. The second component
records the commands issued to the backing store. -/
def ZSet.getitem (dec : String → String) (flag : Bool) (key : String) (z : ZState) :
    PyIndex → Except PyErr (List ZItem) × List Cmd
  | .iint _ =>
    (.error (.indexError "ZSet does not support direct indexing, use a slice instead"), [])
  | .islice start stop step =>
    if step = some (-1) then
      let r := ZSet.revrange dec flag key z (start.getD 0) (stop.getD (-1)) false
      (.ok r.1, r.2)
    else
      let r := ZSet.range dec flag key z (start.getD 0) (stop.getD (-1)) false
      (pyStride step r.1, r.2)

/-- Source `ZSet.unshift(count=1)`, atomic branch (server version
≥ 5.0.0): one `ZPOPMIN key count`, each returned `(member, score)` pair
decoded. -/
def ZSet.unshiftAtomic (dec : String → String) (z : ZState) (count : Int) :
    List (String × Int) × ZState :=
  let r := zpopmin z count
  (r.1.map (fun p => (dec p.1, p.2)), r.2)

/-- Source `ZSet.unshift(count=1)`, fallback branch (server version
< 5.0.0): `front = self.range(0, count-1, withscores=True)` — one
`ZRANGE` whose rows are decoded to pairs — then `self.remove(i[0])` for
each returned pair (`remove` re-encodes the decoded member with the
instance encoder), returning `front`. -/
def ZSet.unshiftFallback (enc dec : String → String) (z : ZState) (count : Int) :
    List (String × Int) × ZState :=
  let front := (zrangeRaw z 0 (count - 1)).map (fun p => (dec p.1, p.2))
  (front, front.foldl (fun st q => zrem st (enc q.1)) z)

/-- Source `ZSet.add(mapping)`: each member of the mapping is encoded,
the scores are left untouched, and every pair is upserted (`ZADD`). -/
def ZSet.add (enc : String → String) (z : ZState) (mapping : List (String × Int)) : ZState :=
  mapping.foldl (fun st q => zadd1 st (enc q.1) q.2) z

/-- Source `ZSet.remove(member)`: one `ZREM` of the encoded member. -/
def ZSet.remove (enc : String → String) (z : ZState) (member : String) : ZState :=
  zrem z (enc member)

/-- Opaque backing-store connection handle (created and owned
externally); only its presence or absence matters to this layer. -/
structure Client where
  id : Nat
deriving Repr, DecidableEq

/-- Source `ConfiurationError` (sic): carries the message and the
process-wide `redis_client` module global as seen at raise time. -/
structure ConfiurationError where
  msg : String
  redis_client : Option Client
deriving Repr, DecidableEq

/-- Base wrapper state established by `RedisType.__init__` when
construction succeeds: the bound key and the resolved client handle. -/
structure RedisTypeObj where
  key : String
  client : Client
deriving Repr, DecidableEq

/-- Message of the configuration error raised by `RedisType.__init__`. -/
def cfgMsg : String :=
  "Redis Client is not configured, please call redis_types.initialize before using"

/-- Source `RedisType.__init__(key, use_client=None, ...)`, with the
module global `redis_client` (set by `initialize`, `None` beforehand)
passed explicitly: the bound client is `use_client or redis_client`, and
when that is `None` the constructor raises `ConfiurationError`, so no
wrapper instance is produced. -/
def RedisType.init (redis_client : Option Client) (key : String)
    (use_client : Option Client) : Except ConfiurationError RedisTypeObj :=
  match use_client with
  | some c => .ok ⟨key, c⟩
  | none =>
    match redis_client with
    | some c => .ok ⟨key, c⟩
    | none => .error ⟨cfgMsg, redis_client⟩

/-- Wrapper state of a constructed ZSet: the base state plus the
`withscores` display flag. -/
structure ZSetObj where
  base : RedisTypeObj
  withscores : Bool
deriving Repr, DecidableEq

/-- Source `ZSet.__init__`: delegates to `RedisType.__init__` (an error
there propagates) and then sets `withscores = False`. -/
def ZSet.init (redis_client : Option Client) (key : String)
    (use_client : Option Client) : Except ConfiurationError ZSetObj :=
  (RedisType.init redis_client key use_client).map (fun b => ⟨b, false⟩)

/-- Construction of a Set wrapper: `RedisType.__init__` unchanged. -/
def Set.init (redis_client : Option Client) (key : String)
    (use_client : Option Client) : Except ConfiurationError RedisTypeObj :=
  RedisType.init redis_client key use_client

/-- Construction of a Hash wrapper: `RedisType.__init__` unchanged. -/
def Hash.init (redis_client : Option Client) (key : String)
    (use_client : Option Client) : Except ConfiurationError RedisTypeObj :=
  RedisType.init redis_client key use_client

/-- Construction of a List wrapper: `RedisType.__init__` unchanged. -/
def List.init (redis_client : Option Client) (key : String)
    (use_client : Option Client) : Except ConfiurationError RedisTypeObj :=
  RedisType.init redis_client key use_client

/-- Server state of one hash key: its field/value pairs (fields pairwise
distinct; values are wire values). -/
structure HState where
  fields : List (String × String)
deriving Repr, DecidableEq

/-- Client command `HGET key field`: the value stored under the field, or
`nil`. -/
def hget (h : HState) (field : String) : Option String :=
  (h.fields.find? (fun p => p.1 == field)).map Prod.snd

/-- Client command `HSET key field value`: upsert of one field. -/
def hset (h : HState) (field v : String) : HState :=
  if h.fields.any (fun p => p.1 == field) then
    ⟨h.fields.map (fun p => if p.1 == field then (p.1, v) else p)⟩
  else
    ⟨h.fields ++ [(field, v)]⟩

/-- Client command `HEXISTS key field`. -/
def hexists (h : HState) (field : String) : Bool :=
  h.fields.any (fun p => p.1 == field)

/-- Client command `HDEL key field`: removes the field if present. -/
def hdel (h : HState) (field : String) : HState :=
  ⟨h.fields.filter (fun p => p.1 != field)⟩

/-- Source `Hash.get(field)`: returns `self._client.hget(self._key,
field)` directly — the stored wire value, with no decoding step (the
instance decoder is available but unused). -/
def Hash.get (dec : String → String) (h : HState) (field : String) : Option String :=
  hget h field

/-- Source `Hash.set(field, value)`: stores the encoded value under the
plain (un-encoded) field. -/
def Hash.set (enc : String → String) (h : HState) (field value : String) : HState :=
  hset h field (enc value)

/-- Source `Hash.__contains__(key)`: `HEXISTS` on the plain field. -/
def Hash.contains (h : HState) (field : String) : Bool :=
  hexists h field

/-- Source `Hash.delete(field)`: issues
`self._client.hdel(self._key, self._encoder.encode(field))` — the field
is passed through the value encoder before the `HDEL`. -/
def Hash.delete (enc : String → String) (h : HState) (field : String) : HState :=
  hdel h (enc field)

/-- Sample non-identity encoder used at concrete failing inputs. -/
def encE (v : String) : String := "E:" ++ v

/-- Decoder inverse to `encE` on its image (strips the two-character
tag). -/
def decE (v : String) : String := v.drop 2

/-- Keyspace of Redis plain sets: each key maps to the list of members
stored at that key (a missing key is the empty set). -/
abbrev SetKeyspace : Type := List (String × List String)

/-- Members of the set stored at a key. -/
def setAt (ks : SetKeyspace) (key : String) : List String :=
  ((ks.find? (fun p => p.1 == key)).map Prod.snd).getD []

/-- Client command `SISMEMBER`, receiving its positional arguments as a
list the way a Python call does: with `(key, member)` it reports whether
the member is in the set stored at the key; any other arity is a Python
`TypeError` at call time. -/
def sismember (ks : SetKeyspace) (args : List PyArg) : Except PyErr Bool :=
  match args with
  | [.strA key, .strA member] => .ok ((setAt ks key).contains member)
  | _ => .error (.typeError "sismember missing 1 required positional argument")

/-- Source `Set.__contains__(item)`: calls
`self._client.sismember(self._decoder.decode(item))` — the decoded item
lands in the key position and no member argument is passed at all (the
wrapper's `self._key` is never supplied). -/
def Set.contains (dec : String → String) (ks : SetKeyspace) (key : String)
    (item : String) : Except PyErr Bool :=
  sismember ks [PyArg.strA (dec item)]

/-- Keyspace of Redis lists: each key maps to the list stored at that key
(a missing key is the empty list). -/
abbrev ListKeyspace : Type := List (String × List String)

/-- Items of the list stored at a key. -/
def listAt (ks : ListKeyspace) (key : String) : List String :=
  ((ks.find? (fun p => p.1 == key)).map Prod.snd).getD []

/-- Redis `LINDEX` element selection: zero-based index, negative indices
counting from the end, `nil` when out of bounds. -/
def listElem (l : List String) (i : Int) : Option String :=
  let n : Int := l.length
  let j : Int := if i < 0 then i + n else i
  if 0 ≤ j ∧ j < n then some (l.getD j.toNat "") else none

/-- Client command `LINDEX` with Python-call arity checking: with
`(key, index)` it returns the element (or `nil`); any other arity raises
`TypeError` at call time. -/
def lindexCmd (ks : ListKeyspace) (args : List PyArg) : Except PyErr (Option String) :=
  match args with
  | [.strA key, .intA i] => .ok (listElem (listAt ks key) i)
  | _ => .error (.typeError "lindex missing 1 required positional argument")

/-- Source `List.lindex(index)` (also reached by non-slice
`List.__getitem__`): calls `self._client.lindex(index)` — the index lands
in the key position and no index argument is passed (the wrapper's
`self._key` is never supplied); the reply, had one arrived, would be
decoded. -/
def List.lindex (dec : String → String) (ks : ListKeyspace) (key : String)
    (index : Int) : Except PyErr (Option String) :=
  (lindexCmd ks [PyArg.intA index]).map (fun r => r.map dec)

/-! ## Helper lemmas -/

/-- Redis full-range selection: `start = 0`, `stop = -1` selects the whole
collection. -/
theorem redisSlice_full {α : Type} (l : List α) : redisSlice l 0 (-1) = l := by
  unfold redisSlice
  rcases l with _ | ⟨x, xs⟩
  · simp
  · have hlen : (0 : Int) ≤ -1 + ((x :: xs).length : Int) := by
      simp
    have htk : (-1 + ((x :: xs).length : Int) - 0 + 1).toNat = (x :: xs).length := by
      omega
    simp [hlen, htk]

/-- Ascending range read of the lowest `count` entries: with
`1 ≤ count ≤ card`, `ZRANGE key 0 (count-1)` selects exactly the first
`count` entries of the server's sorted entry list. -/
theorem zrangeRaw_take (z : ZState) (count : Int) (h1 : 1 ≤ count)
    (hN : count ≤ (z.card : Int)) :
    zrangeRaw z 0 (count - 1) = z.entries.take count.toNat := by
  unfold zrangeRaw redisSlice
  have hcard : z.card = z.entries.length := rfl
  have h2 : ¬ ((0 : Int) < 0) := by omega
  have h3 : ¬ (count - 1 < 0) := by omega
  have h4 : min (count - 1) ((z.entries.length : Int) - 1) = count - 1 := by
    omega
  have h5 : (0 : Int) ≤ count - 1 := by omega
  have h6 : (count - 1 - 0 + 1).toNat = count.toNat := by omega
  simp [h2, h3, h4, h5, h6]

/-- Replacing the removed-member computation pointwise does not change a
fold of `zrem` steps. -/
theorem foldl_zrem_congr (f g : String × Int → String) (s : List (String × Int))
    (h : ∀ p ∈ s, f p = g p) (t : ZState) :
    s.foldl (fun st p => zrem st (f p)) t = s.foldl (fun st p => zrem st (g p)) t := by
  induction s generalizing t with
  | nil => rfl
  | cons x xs ih =>
    simp only [List.foldl_cons]
    rw [h x (by simp)]
    exact ih (fun p hp => h p (by simp [hp])) _

/-- Removing, one by one, the members of the first `k` entries of a
sorted-set entry list with pairwise-distinct members leaves exactly the
remaining entries. -/
theorem foldl_zrem_take (l : List (String × Int)) (k : Nat)
    (hnd : (l.map Prod.fst).Nodup) :
    (l.take k).foldl (fun st p => zrem st p.1) ⟨l⟩ = ⟨l.drop k⟩ := by
  induction l generalizing k with
  | nil => simp
  | cons x xs ih =>
    cases k with
    | zero => simp
    | succ j =>
      simp only [List.take_succ_cons, List.foldl_cons, List.drop_succ_cons]
      rw [List.map_cons, List.nodup_cons] at hnd
      have hzrem : zrem ⟨x :: xs⟩ x.1 = ⟨xs⟩ := by
        unfold zrem
        rw [List.filter_cons]
        have hx : (x.1 != x.1) = false := by simp
        rw [hx]
        simp only [ZState.mk.injEq]
        refine List.filter_eq_self.mpr (fun a ha => ?_)
        have hne : a.1 ≠ x.1 := by
          intro he
          exact hnd.1 (he ▸ List.mem_map_of_mem Prod.fst ha)
        simp [hne]
      rw [hzrem]
      exact ih j hnd.2

/-! ## Claim theorems -/

/-- C1: on a well-formed sorted set whose members the codec round-trips,
popping `1 ≤ count ≤ card` members from the front returns the same reply
and leaves the same state on the atomic path (`ZPOPMIN`) and on the
fallback path (`ZRANGE 0 (count-1)` followed by one `ZREM` per returned
member); the reply has exactly `count` pairs, the cardinality drops by
exactly `count`, the reply is in ascending score order, each returned
pair is (the decoding of) an original entry, and every returned score is
at most every remaining score. -/
theorem zset_unshift_paths_agree (enc dec : String → String) (z : ZState) (count : Int)
    (hwf : ZWF z) (h1 : 1 ≤ count) (hN : count ≤ (z.card : Int))
    (hcodec : ∀ p ∈ z.entries, enc (dec p.1) = p.1) :
    ZSet.unshiftFallback enc dec z count = ZSet.unshiftAtomic dec z count ∧
    (ZSet.unshiftAtomic dec z count).1.length = count.toNat ∧
    ((ZSet.unshiftAtomic dec z count).2.card : Int) = (z.card : Int) - count ∧
    List.Sorted (fun a b : String × Int => a.2 ≤ b.2) (ZSet.unshiftAtomic dec z count).1 ∧
    (∀ p ∈ (ZSet.unshiftAtomic dec z count).1, (enc p.1, p.2) ∈ z.entries) ∧
    (∀ p ∈ (ZSet.unshiftAtomic dec z count).1,
      ∀ q ∈ (ZSet.unshiftAtomic dec z count).2.entries, p.2 ≤ q.2) := by
  obtain ⟨hsort, hnd⟩ := hwf
  have hcard : z.card = z.entries.length := rfl
  have hk : count.toNat ≤ z.entries.length := by omega
  have hrange : zrangeRaw z 0 (count - 1) = z.entries.take count.toNat :=
    zrangeRaw_take z count h1 hN
  have hcross : ∀ a ∈ z.entries.take count.toNat, ∀ b ∈ z.entries.drop count.toNat,
      zleP a b := by
    have hp : List.Pairwise zleP
        (z.entries.take count.toNat ++ z.entries.drop count.toNat) := by
      rw [List.take_append_drop]
      exact hsort
    exact (List.pairwise_append.mp hp).2.2
  refine ⟨?_, ?_, ?_, ?_, ?_, ?_⟩
  · unfold ZSet.unshiftFallback ZSet.unshiftAtomic zpopmin
    rw [hrange]
    refine Prod.ext rfl ?_
    show (_ : List (String × Int)).foldl _ z = _
    rw [List.foldl_map]
    have hcg : ∀ p ∈ z.entries.take count.toNat, enc (dec p.1) = p.1 :=
      fun p hp => hcodec p (List.take_subset _ _ hp)
    calc (z.entries.take count.toNat).foldl (fun st p => zrem st (enc (dec p.1))) z
        = (z.entries.take count.toNat).foldl (fun st p => zrem st p.1) z :=
          foldl_zrem_congr (fun p => enc (dec p.1)) Prod.fst _ hcg z
      _ = ⟨z.entries.drop count.toNat⟩ :=
          foldl_zrem_take z.entries count.toNat hnd
  · unfold ZSet.unshiftAtomic zpopmin
    simp [List.length_take, Nat.min_eq_left hk]
  · unfold ZSet.unshiftAtomic zpopmin ZState.card
    simp only [List.length_drop]
    omega
  · unfold ZSet.unshiftAtomic zpopmin
    refine List.Pairwise.map _ ?_ (List.Pairwise.sublist (List.take_sublist _ _) hsort)
    intro a b hab
    rcases hab with h | ⟨h, _⟩
    · exact le_of_lt h
    · exact le_of_eq h
  · unfold ZSet.unshiftAtomic zpopmin
    intro p hp
    simp only [List.mem_map] at hp
    obtain ⟨a, ha, rfl⟩ := hp
    have ham : a ∈ z.entries := List.take_subset _ _ ha
    have hae : enc (dec a.1) = a.1 := hcodec a ham
    simpa [hae] using ham
  · unfold ZSet.unshiftAtomic zpopmin
    intro p hp q hq
    simp only [List.mem_map] at hp
    obtain ⟨a, ha, rfl⟩ := hp
    have hz := hcross a ha q hq
    rcases hz with h | ⟨h, _⟩
    · exact le_of_lt h
    · exact le_of_eq h

/-- Concrete instantiation of `zset_unshift_paths_agree`: identity codec,
state `[("a", 1), ("b", 2)]`, `count = 1`. -/
theorem zset_unshift_paths_agree_witness :
    ZSet.unshiftFallback id id (ZState.mk [("a", 1), ("b", 2)]) 1
      = ZSet.unshiftAtomic id (ZState.mk [("a", 1), ("b", 2)]) 1 ∧
    (ZSet.unshiftAtomic id (ZState.mk [("a", 1), ("b", 2)]) 1).1.length = (1 : Int).toNat ∧
    ((ZSet.unshiftAtomic id (ZState.mk [("a", 1), ("b", 2)]) 1).2.card : Int)
      = ((ZState.mk [("a", 1), ("b", 2)]).card : Int) - 1 ∧
    List.Sorted (fun a b : String × Int => a.2 ≤ b.2)
      (ZSet.unshiftAtomic id (ZState.mk [("a", 1), ("b", 2)]) 1).1 ∧
    (∀ p ∈ (ZSet.unshiftAtomic id (ZState.mk [("a", 1), ("b", 2)]) 1).1,
      (id p.1, p.2) ∈ (ZState.mk [("a", 1), ("b", 2)]).entries) ∧
    (∀ p ∈ (ZSet.unshiftAtomic id (ZState.mk [("a", 1), ("b", 2)]) 1).1,
      ∀ q ∈ (ZSet.unshiftAtomic id (ZState.mk [("a", 1), ("b", 2)]) 1).2.entries,
        p.2 ≤ q.2) :=
  zset_unshift_paths_agree id id (ZState.mk [("a", 1), ("b", 2)]) 1
    (by decide) (by decide) (by decide) (by decide)

/-- C2: constructing any of the four typed wrappers with no explicit
client handle while the process-wide handle is unset fails with the
configuration error whose message says to call `redis_types.initialize`
and which carries the (empty) process-wide handle state; no wrapper
instance is produced. -/
theorem wrapper_construction_unconfigured (key : String) :
    ZSet.init none key none = .error ⟨cfgMsg, none⟩ ∧
    Set.init none key none = .error ⟨cfgMsg, none⟩ ∧
    Hash.init none key none = .error ⟨cfgMsg, none⟩ ∧
    List.init none key none = .error ⟨cfgMsg, none⟩ ∧
    cfgMsg = "Redis Client is not configured, please call redis_types.initialize before using" :=
  ⟨rfl, rfl, rfl, rfl, rfl⟩

/-- C3 (code bug): under a faithful codec pair (`decE (encE v) = v` at
the stored value), `Hash.set` stores the encoded value but `Hash.get`
returns the raw stored wire value without decoding, so the read-back
differs from the value stored. -/
theorem hash_get_missing_decode :
    decE (encE "one") = "one" ∧
    Hash.get decE (Hash.set encE (HState.mk []) "f" "one") "f" = some "E:one" ∧
    (some "E:one" : Option String) ≠ some "one" := by
  decide

/-- C4 (counterexample): with the instance flag `withscores = True`, the
call `range(0, 0, withscores=False)` still returns scored pairs — the
explicitly provided `False` does not override the instance flag, so the
claim "an explicit `w` governs regardless of the instance flag" is
false. -/
theorem zset_range_withscores_false_counterexample :
    (ZSet.range id true "k" (ZState.mk [("a", 1)]) 0 0 false).1 = [ZItem.pair "a" 1] ∧
    (ZSet.range id true "k" (ZState.mk [("a", 1)]) 0 0 false).1 ≠ [ZItem.mem "a"] := by
  decide

/-- C4 (amended): the effective `withscores` of `range` and `revrange` is
the logical OR of the explicit parameter and the instance flag — an
explicit `true` forces scores, an explicit `false` defers to the instance
flag, and the parameter alone governs exactly when the instance flag is
false. -/
theorem zset_range_withscores_or (dec : String → String) (flag : Bool) (key : String)
    (z : ZState) (start stop : Int) (w : Bool) :
    ZSet.range dec flag key z start stop w
      = ZSet.range dec false key z start stop (w || flag) ∧
    ZSet.revrange dec flag key z start stop w
      = ZSet.revrange dec false key z start stop (w || flag) := by
  constructor <;> simp [ZSet.range, ZSet.revrange]

/-- C5 (code bug): every membership query through the Set wrapper raises
`TypeError`, because `__contains__` passes only the decoded item (in the
key position) to `SISMEMBER`; the two-argument query the claim describes
answers true on the same store, where the encoded member is present. -/
theorem set_contains_arity_bug :
    (∀ (dec : String → String) (ks : SetKeyspace) (key item : String),
      Set.contains dec ks key item
        = .error (.typeError "sismember missing 1 required positional argument")) ∧
    sismember [("k", ["E:a"])] [.strA "k", .strA (encE "a")] = .ok true ∧
    Set.contains id [("k", ["E:a"])] "k" "a"
      = .error (.typeError "sismember missing 1 required positional argument") :=
  ⟨fun dec ks key item => rfl, rfl, rfl⟩

/-- C6 (code bug): every `lindex` read through the List wrapper raises
`TypeError`, because the method passes only the index (in the key
position) to the client's `LINDEX`; the two-argument query the claim
describes returns the element at position 1 of the same store. -/
theorem list_lindex_arity_bug :
    (∀ (dec : String → String) (ks : ListKeyspace) (key : String) (index : Int),
      List.lindex dec ks key index
        = .error (.typeError "lindex missing 1 required positional argument")) ∧
    lindexCmd [("k", ["a", "b"])] [.strA "k", .intA 1] = .ok (some "b") ∧
    List.lindex id [("k", ["a", "b"])] "k" 1
      = .error (.typeError "lindex missing 1 required positional argument") :=
  ⟨fun dec ks key index => rfl, rfl, rfl⟩

/-- C7 (code bug): `Hash.delete` encodes the field before issuing `HDEL`
although fields are plain strings in `set`, `get` and `__contains__`, so
under a non-identity codec `delete "1"` removes a different field and the
membership check still sees `"1"`; with the identity codec the field is
removed. -/
theorem hash_delete_encodes_field :
    Hash.contains (Hash.delete encE (HState.mk [("1", "one")]) "1") "1" = true ∧
    Hash.contains (Hash.delete id (HState.mk [("1", "one")]) "1") "1" = false := by
  decide

/-- C8: indexing a ZSet wrapper with a plain (non-slice) index is rejected
immediately with the layer's invalid-argument error (`IndexError` with
the source's message), and no command is issued to the backing store. -/
theorem zset_getitem_nonslice_rejected (dec : String → String) (flag : Bool)
    (key : String) (z : ZState) (i : Int) :
    ZSet.getitem dec flag key z (.iint i)
      = (.error (.indexError "ZSet does not support direct indexing, use a slice instead"),
         []) :=
  rfl

/-- C9 (counterexample): when the member is already present, `add` merely
updates its score, so `add {"a": 2}` followed by `remove "a"` on the
one-element set `{"a": 1}` drops the cardinality from 1 to 0 — the claim
"add then remove leaves cardinality unchanged" is false in general. -/
theorem zset_add_remove_counterexample :
    (ZSet.remove id (ZSet.add id (ZState.mk [("a", 1)]) [("a", 2)]) "a").card = 0 ∧
    (ZState.mk [("a", 1)]).card = 1 := by
  decide

/-- C9 (amended): provided the encoded member is not already in the
sorted set, `add {m: s}` followed by `remove m` leaves the cardinality
equal to what it was before the add. -/
theorem zset_add_remove_card (enc : String → String) (z : ZState) (m : String) (sc : Int)
    (h : enc m ∉ z.keys) :
    (ZSet.remove enc (ZSet.add enc z [(m, sc)]) m).card = z.card := by
  unfold ZSet.add ZSet.remove
  simp only [List.foldl_cons, List.foldl_nil]
  unfold zadd1 zrem ZState.card
  have hfe : z.entries.filter (fun p => p.1 != enc m) = z.entries := by
    refine List.filter_eq_self.mpr (fun a ha => ?_)
    have hne : a.1 ≠ enc m := by
      intro he
      exact h (he ▸ List.mem_map_of_mem Prod.fst ha)
    simp [hne]
  rw [hfe]
  have hperm := List.perm_orderedInsert zleP (enc m, sc) z.entries
  have hpf := hperm.filter (fun p : String × Int => p.1 != enc m)
  simp only [Prod.mk.injEq]
  rw [hpf.length_eq, List.filter_cons]
  simp [hfe]

/-- Concrete instantiation of `zset_add_remove_card`: identity encoder,
state `[("b", 1)]`, fresh member `"a"`. -/
theorem zset_add_remove_card_witness :
    (ZSet.remove id (ZSet.add id (ZState.mk [("b", 1)]) [("a", 2)]) "a").card
      = (ZState.mk [("b", 1)]).card :=
  zset_add_remove_card id (ZState.mk [("b", 1)]) "a" 2 (by decide)

/-- C10: slicing a ZSet wrapper substitutes 0 for a missing start and -1
for a missing stop, so `zset[::]` is the whole collection ascending (one
`ZRANGE key 0 -1`) and `zset[::-1]` the whole collection descending (one
`ZREVRANGE key 0 -1`); a well-formed state is score-ascending; step `-1`
always delegates to `revrange` with no post-hoc stride, and every other
step delegates to `range` and applies the Python stride to the reply. -/
theorem zset_getitem_slice_semantics (dec : String → String) (flag : Bool) (key : String)
    (z : ZState) (hwf : ZWF z) :
    ZSet.getitem dec flag key z (.islice none none none)
      = (.ok (z.entries.map (zitem dec flag)), [Cmd.zrange key 0 (-1) flag]) ∧
    ZSet.getitem dec flag key z (.islice none none (some (-1)))
      = (.ok (z.entries.reverse.map (zitem dec flag)), [Cmd.zrevrange key 0 (-1) flag]) ∧
    z.entries.Sorted (fun a b => a.2 ≤ b.2) ∧
    (∀ start stop, ZSet.getitem dec flag key z (.islice start stop (some (-1)))
      = (.ok (ZSet.revrange dec flag key z (start.getD 0) (stop.getD (-1)) false).1,
         (ZSet.revrange dec flag key z (start.getD 0) (stop.getD (-1)) false).2)) ∧
    (∀ start stop step, step ≠ some (-1) →
      ZSet.getitem dec flag key z (.islice start stop step)
      = (pyStride step (ZSet.range dec flag key z (start.getD 0) (stop.getD (-1)) false).1,
         (ZSet.range dec flag key z (start.getD 0) (stop.getD (-1)) false).2)) := by
  refine ⟨?_, ?_, ?_, ?_, ?_⟩
  · simp [ZSet.getitem, ZSet.range, zrangeRaw, redisSlice_full, pyStride]
  · simp [ZSet.getitem, ZSet.revrange, zrevrangeRaw, redisSlice_full]
  · refine hwf.1.imp (fun h => ?_)
    rcases h with h | ⟨h, _⟩
    · exact le_of_lt h
    · exact le_of_eq h
  · intro start stop
    simp [ZSet.getitem]
  · intro start stop step hstep
    simp [ZSet.getitem, hstep]

/-- Concrete instantiation of `zset_getitem_slice_semantics` at the
two-element state `[("a", 1), ("b", 2)]` with the identity decoder. -/
theorem zset_getitem_slice_semantics_witness :
    ZSet.getitem id false "k" (ZState.mk [("a", 1), ("b", 2)]) (.islice none none none)
      = (.ok ((ZState.mk [("a", 1), ("b", 2)]).entries.map (zitem id false)),
         [Cmd.zrange "k" 0 (-1) false]) ∧
    ZSet.getitem id false "k" (ZState.mk [("a", 1), ("b", 2)]) (.islice none none (some (-1)))
      = (.ok ((ZState.mk [("a", 1), ("b", 2)]).entries.reverse.map (zitem id false)),
         [Cmd.zrevrange "k" 0 (-1) false]) ∧
    (ZState.mk [("a", 1), ("b", 2)]).entries.Sorted (fun a b => a.2 ≤ b.2) ∧
    (∀ start stop, ZSet.getitem id false "k" (ZState.mk [("a", 1), ("b", 2)])
        (.islice start stop (some (-1)))
      = (.ok (ZSet.revrange id false "k" (ZState.mk [("a", 1), ("b", 2)])
           (start.getD 0) (stop.getD (-1)) false).1,
         (ZSet.revrange id false "k" (ZState.mk [("a", 1), ("b", 2)])
           (start.getD 0) (stop.getD (-1)) false).2)) ∧
    (∀ start stop step, step ≠ some (-1) →
      ZSet.getitem id false "k" (ZState.mk [("a", 1), ("b", 2)]) (.islice start stop step)
      = (pyStride step (ZSet.range id false "k" (ZState.mk [("a", 1), ("b", 2)])
           (start.getD 0) (stop.getD (-1)) false).1,
         (ZSet.range id false "k" (ZState.mk [("a", 1), ("b", 2)])
           (start.getD 0) (stop.getD (-1)) false).2)) :=
  zset_getitem_slice_semantics id false "k" (ZState.mk [("a", 1), ("b", 2)]) (by decide)

end RedisTypes
